import Mathlib

/-!
Verification of the sandboxed code-preview renderer of the gemini-app
repository.  The renderer (`CodePreview`, with its `updateIframe`
normalization-and-wrap step) is embedded shallowly: the JavaScript regex
replacements are translated into executable character-list scanners, the
runner template is embedded byte-for-byte, and the component's state
handlers (`copyToClipboard`, `activeTab` initialization, the iframe
`doc.open/write/close` sequence, and `Chat.handleSubmit`) become pure
state-passing functions.
-/

namespace GeminiApp

/-! ### Character classes of the JavaScript regexes

`jsSpace` is the JS regex class `\s` (the set of WhiteSpace and
LineTerminator code points), `wordChar` is `\w` (`[A-Za-z0-9_]`), and
`dotChar` is `.` without the `s` flag (any char except line terminators).
Each is defined on the character's code point. -/

def jsSpace (c : Char) : Bool :=
  c.toNat = 32 || c.toNat = 9 || c.toNat = 10 || c.toNat = 13 ||
  c.toNat = 11 || c.toNat = 12 ||
  c.toNat = 0xa0 || c.toNat = 0x1680 ||
  (0x2000 ≤ c.toNat && c.toNat ≤ 0x200a) ||
  c.toNat = 0x2028 || c.toNat = 0x2029 || c.toNat = 0x202f ||
  c.toNat = 0x205f || c.toNat = 0x3000 || c.toNat = 0xfeff

def wordChar (c : Char) : Bool :=
  (97 ≤ c.toNat && c.toNat ≤ 122) || (65 ≤ c.toNat && c.toNat ≤ 90) ||
  (48 ≤ c.toNat && c.toNat ≤ 57) || c.toNat = 95

def dotChar (c : Char) : Bool :=
  !(c.toNat = 10 || c.toNat = 13 || c.toNat = 0x2028 || c.toNat = 0x2029)

def quoteChar (c : Char) : Bool :=
  c = '\x27' || c = '"'

/-! ### Primitive regex pieces -/

/-- Match a literal character sequence at the head; return the rest. -/
def dropLit : List Char → List Char → Option (List Char)
  | [], cs => some cs
  | _ :: _, [] => none
  | l :: ls, c :: cs => if c = l then dropLit ls cs else none

/-- Greedy `\s+`: at least one whitespace char, then the maximal run. -/
def wsPlus : List Char → Option (List Char)
  | [] => none
  | c :: cs => if jsSpace c then some (cs.dropWhile (fun x => jsSpace x)) else none

/-- Greedy `(\w+)`: the maximal nonempty word-char run, returned as the
capture together with the rest. -/
def wordPlus : List Char → Option (List Char × List Char)
  | [] => none
  | c :: cs =>
    if wordChar c then
      some (c :: cs.takeWhile (fun x => wordChar x), cs.dropWhile (fun x => wordChar x))
    else none

/-! ### The four matchers of `updateIframe`'s `cleanedCode` chain

The source applies, in order:
1. `.replace(/import\s+[\s\S]*?from\s+['"].*?['"];?/g, "")`
2. `.replace(/export\s+default\s+function\s+(\w+)/, "function $1")`
3. `.replace(/export\s+default\s+/, "const App = ")`
4. `.replace(/export\s+/g, "")` -/

/-- Match `export\s+` at the head (pattern 4); the match is deleted. -/
def matchEW (cs : List Char) : Option (List Char) :=
  (dropLit "export".data cs).bind wsPlus

/-- Match `export\s+default\s+` at the head (pattern 3); the replacement
is `const App = `. -/
def matchED (cs : List Char) : Option (List Char × List Char) :=
  ((dropLit "export".data cs).bind wsPlus).bind (fun cs1 =>
    ((dropLit "default".data cs1).bind wsPlus).map (fun cs2 =>
      ("const App = ".data, cs2)))

/-- Match `export\s+default\s+function\s+(\w+)` at the head (pattern 2);
the replacement is `function $1` with the captured name. -/
def matchEDF (cs : List Char) : Option (List Char × List Char) :=
  ((dropLit "export".data cs).bind wsPlus).bind (fun cs1 =>
    ((dropLit "default".data cs1).bind wsPlus).bind (fun cs2 =>
      ((dropLit "function".data cs2).bind wsPlus).bind (fun cs3 =>
        (wordPlus cs3).map (fun p => ("function ".data ++ p.1, p.2)))))

/-- Lazy `.*?['"]` followed by greedy `;?`: consume the shortest run of
dot-chars up to a quote, then an optional semicolon. -/
def lazyClose : List Char → Option (List Char)
  | [] => none
  | c :: cs =>
    if quoteChar c then
      some (match cs with | ';' :: cs2 => cs2 | cs2 => cs2)
    else if dotChar c then lazyClose cs
    else none

/-- The opening `['"]` of the module string, then `.*?['"];?`. -/
def tryQuote : List Char → Option (List Char)
  | [] => none
  | q :: cs2 => if quoteChar q then lazyClose cs2 else none

/-- Match `from\s+['"].*?['"];?` at the head. -/
def tryTail (cs : List Char) : Option (List Char) :=
  ((dropLit "from".data cs).bind wsPlus).bind tryQuote

/-- The lazy `[\s\S]*?` scan: find the earliest position at which
`tryTail` succeeds.  (Since `[\s\S]` matches every character, the lazy
quantifier is exactly a left-to-right search for the first tail match.) -/
def findFromTail : List Char → Option (List Char)
  | [] => none
  | c :: cs =>
    match tryTail (c :: cs) with
    | some r => some r
    | none => findFromTail cs

/-- Match `import\s+[\s\S]*?from\s+['"].*?['"];?` at the head
(pattern 1); the match is deleted.  The greedy `\s+` takes the maximal
whitespace run: `from` cannot start with a whitespace character, so no
completion is lost by not backtracking into the run. -/
def matchImport (cs : List Char) : Option (List Char) :=
  ((dropLit "import".data cs).bind wsPlus).bind findFromTail

/-! ### Replacement scanners (JS `String.replace` semantics) -/

/-- Global replace with empty replacement: scan left to right; after each
match, continue right after it (matches never overlap and the result is
not rescanned).  Fuel bounds the iteration count; `length + 1` always
suffices because every step consumes at least one character. -/
def stripAll (m : List Char → Option (List Char)) : Nat → List Char → List Char
  | 0, cs => cs
  | _ + 1, [] => []
  | fuel + 1, c :: cs =>
    match m (c :: cs) with
    | some rest => stripAll m fuel rest
    | none => c :: stripAll m fuel cs

/-- Non-global replace: rewrite only the leftmost match and keep the rest
of the string untouched. -/
def replaceOne (m : List Char → Option (List Char × List Char)) : List Char → List Char
  | [] => []
  | c :: cs =>
    match m (c :: cs) with
    | some (rep, rest) => rep ++ rest
    | none => c :: replaceOne m cs

/-- Does the matcher succeed at some position of the string? -/
def hasMatchB (m : List Char → Option (List Char)) : List Char → Bool
  | [] => (m []).isSome
  | c :: cs => (m (c :: cs)).isSome || hasMatchB m cs

/-- Does the pair-returning matcher succeed at some position? -/
def hasMatchOneB (m : List Char → Option (List Char × List Char)) : List Char → Bool
  | [] => (m []).isSome
  | c :: cs => (m (c :: cs)).isSome || hasMatchOneB m cs

/-- Substring test at the character level. -/
def containsSub (pat : List Char) : List Char → Bool
  | [] => pat.isEmpty
  | c :: cs => pat.isPrefixOf (c :: cs) || containsSub pat cs

/-! ### The renderer pipeline (from `updateIframe` in the source) -/

/-- The `cleanedCode` normalization chain of `updateIframe`, at the
character-list level: strip `import … from '…';` statements, rewrite the
first `export default function NAME` to `function NAME`, rewrite the
first remaining `export default ` to `const App = `, then delete every
`export␣` token. -/
def cleanedCodeL (s : List Char) : List Char :=
  let s1 := stripAll matchImport (s.length + 1) s
  let s2 := replaceOne matchEDF s1
  let s3 := replaceOne matchED s2
  stripAll matchEW (s3.length + 1) s3

def cleanedCode (code : String) : String :=
  (cleanedCodeL code.data).asString

/-! ### The runner template (from `updateIframe`, part_006 lines 62-138)

The template literal's text is embedded byte-for-byte; `templatePre` is
everywhere before the `cleanedCode` interpolation point, `templatePost`
everywhere after it. -/

def templatePre : String :=
  "\n        <!DOCTYPE html>\n        <html>\n          <head>\n            <meta charset=\"UTF-8\" />\n            <script src=\"https://unpkg.com/@babel/standalone/babel.min.js\"></script>\n            <script src=\"https://unpkg.com/react@18/umd/react.development.js\"></script>\n            <script src=\"https://unpkg.com/react-dom@18/umd/react-dom.development.js\"></script>\n            <script src=\"https://unpkg.com/lucide@latest\"></script>\n            <script src=\"https://cdn.tailwindcss.com\"></script>\n            <style>\n              body \x7b \n                margin: 0; \n                font-family: -apple-system, BlinkMacSystemFont, \"Segoe UI\", Roboto, Helvetica, Arial, sans-serif; \n                background-color: white;\n                color: #18181b;\n              \x7d\n              #root \x7b padding: 0; min-height: 100vh; \x7d\n              ::-webkit-scrollbar \x7b width: 8px; \x7d\n              ::-webkit-scrollbar-track \x7b background: #f1f1f1; \x7d\n              ::-webkit-scrollbar-thumb \x7b background: #888; border-radius: 4px; \x7d\n              ::-webkit-scrollbar-thumb:hover \x7b background: #555; \x7d\n            </style>\n          </head>\n          <body>\n            <div id=\"root\"></div>\n            <script type=\"text/babel\" data-presets=\"react,typescript\">\n              // Setup globals for the AI code\n              const \x7b \n                useState, useEffect, useMemo, useCallback, useRef, \n                useReducer, useContext, createContext, useLayoutEffect,\n                useImperativeHandle, useDebugValue, useDeferredValue,\n                useTransition, useId\n              \x7d = React;\n              \n              // Lucide icon helper\n              window.LucideReact = window.lucide;\n\n              try \x7b\n                "

def templatePost : String :=
  "\n                \n                // Final render logic\n                const container = document.getElementById(\x27root\x27);\n                const root = ReactDOM.createRoot(container);\n                \n                if (typeof App !== \x27undefined\x27) \x7b\n                  root.render(\n                    <React.StrictMode>\n                      <App />\n                    </React.StrictMode>\n                  );\n                \x7d else if (typeof main !== \x27undefined\x27) \x7b\n                  main();\n                \x7d else \x7b\n                  console.error(\"No \x27App\x27 component found.\");\n                  container.innerHTML = \x27<div style=\"padding: 20px; color: #ef4444;\">Error: No <b>App</b> component found. Please define <code>export default function App()</code>.</div>\x27;\n                \x7d\n                \n                // Initialize lucide icons if any\n                setTimeout(() => \x7b\n                  if (window.lucide) \x7b\n                    window.lucide.createIcons();\n                  \x7d\n                \x7d, 100);\n              \x7d catch (err) \x7b\n                console.error(\"Preview Error:\", err);\n                document.getElementById(\x27root\x27).innerHTML = \x60\n                  <div style=\"color: #ef4444; background: #fee2e2; padding: 1.5rem; border: 1px solid #fecaca; border-radius: 0.5rem; font-family: ui-monospace, SFMono-Regular, Menlo, Monaco, Consolas, monospace; margin: 1rem;\">\n                    <h3 style=\"margin-top: 0; color: #991b1b; font-size: 1.125rem;\">Runtime Error</h3>\n                    <pre style=\"white-space: pre-wrap; margin: 0; font-size: 0.875rem; line-height: 1.5;\">$\x7berr.stack || err.toString()\x7d</pre>\n                  </div>\n                \x60;\n              \x7d\n            </script>\n          </body>\n        </html>\n      "

/-- `updateIframe`'s document composition: the `content` string written
into the iframe.  `html` sources pass through verbatim; the four
script-like languages are normalized and wrapped in the runner template;
all other languages produce the initial empty string. -/
def renderContent (language code : String) : String :=
  if language = "html" then code
  else if language = "jsx" || language = "tsx" ||
          language = "javascript" || language = "typescript" then
    templatePre ++ cleanedCode code ++ templatePost
  else ""

/-- Is the head of the list (if any) outside the class `p`? -/
def headNot (p : Char → Bool) : List Char → Bool
  | [] => true
  | c :: _ => !p c

/-- Does the matcher fail at every position inside `x` (each suffix of
`x` continued by `tail`)?  With `m := tryTail` this is the condition
under which the lazy `[\s\S]*?` scan passes over `x` without finding a
`from`-clause; with `m := matchImport` it says a scan walks over `x`
without matching. -/
def missAllG (m : List Char → Option (List Char)) : List Char → List Char → Bool
  | [], _ => true
  | c :: xs, tail => !(m ((c :: xs) ++ tail)).isSome && missAllG m xs tail

/-- A single-quoted static import statement `import X from 'M';`,
assembled from the specifier text `X` and the module text `M`. -/
def importStmtL (x m : List Char) : List Char :=
  "import ".data ++ x ++ " from \x27".data ++ m ++ "\x27;".data

/-! ### CodePreview component state (part_006) -/

/-- The two display modes of the view toggle (`activeTab`). -/
inductive Tab
  | preview
  | code
deriving DecidableEq, Repr

/-- Initial `activeTab` state (part_006 lines 27-31): `preview` for
`html`, `jsx`, `tsx`; `code` for everything else. -/
def initialActiveTab (language : String) : Tab :=
  if language = "html" || language = "jsx" || language = "tsx" then Tab.preview
  else Tab.code

/-- Chat's previewable-language test (part_007 lines 534-540). -/
def isPreviewable (language : String) : Bool :=
  ["html", "jsx", "tsx", "javascript", "typescript"].contains language

/-- Result of one `copyToClipboard` invocation (part_006 lines 36-40):
the text written to the clipboard, the `copied` flag after the three
synchronous statements, and the scheduled timeout's delay. -/
structure CopyResult where
  written : String
  copied : Bool
  timerDelayMs : Nat
deriving DecidableEq, Repr

/-- `copyToClipboard`: `navigator.clipboard.writeText(code)`,
`setCopied(true)`, `setTimeout(() => setCopied(false), 2000)`. -/
def copyToClipboard (code : String) : CopyResult :=
  { written := code, copied := true, timerDelayMs := 2000 }

/-- What the scheduled timeout callback does to the `copied` flag. -/
def copyTimerFire (_ : CopyResult) : Bool :=
  false

/-! ### The iframe document (the ExecutionContext) -/

/-- State of the iframe's document: the text written into it and whether
the writing stream is closed. -/
structure IframeDoc where
  content : String
  closed : Bool
deriving DecidableEq, Repr

/-- `doc.open()`: discards the current document. -/
def docOpen (_ : IframeDoc) : IframeDoc :=
  { content := "", closed := false }

/-- `doc.write(s)`: appends to the open document. -/
def docWrite (s : String) (d : IframeDoc) : IframeDoc :=
  { d with content := d.content ++ s }

/-- `doc.close()`: finalizes the document. -/
def docClose (d : IframeDoc) : IframeDoc :=
  { d with closed := true }

/-- `updateIframe`'s final step (part_006 lines 141-147): open, write
the composed content, close. -/
def present (content : String) (d : IframeDoc) : IframeDoc :=
  docClose (docWrite content (docOpen d))

/-! ### The sandbox attribute (part_006 line 228) -/

/-- The iframe's `sandbox` attribute value, verbatim from the source. -/
def sandboxAttr : String :=
  "allow-scripts allow-modals allow-forms allow-popups allow-same-origin"

/-- Split a character list at a separator (the browser's parse of the
space-separated token list). -/
def splitOnChar (sep : Char) : List Char → List (List Char)
  | [] => [[]]
  | c :: cs =>
    match splitOnChar sep cs with
    | [] => [[c]]
    | t :: ts => if c = sep then [] :: t :: ts else (c :: t) :: ts

/-- The token list the browser parses from the attribute. -/
def sandboxTokens : List String :=
  (splitOnChar ' ' sandboxAttr.data).map (fun t => t.asString)

/-- Modelled from the spec: §6 requires the execution host to restrict
script execution "without access to host storage or host JavaScript
state", and §9 allows only scripting plus same-origin fetches of named
runtime assets.  Under the standard sandbox-token semantics, a document
that is same-origin with the host (as one written via `document.write`
from the host is) escapes that restriction exactly when the sandbox
grants both `allow-scripts` and `allow-same-origin`; the requirement
holds iff it does not. -/
def isolatesHostState (tokens : List String) (sameOriginDoc : Bool) : Bool :=
  !(sameOriginDoc && tokens.contains "allow-scripts" &&
    tokens.contains "allow-same-origin")

/-- The host writes the preview document with `doc.open/write/close` on
`iframeRef.current.contentWindow.document`, so the loaded document is
same-origin with the host page. -/
def presentedDocSameOrigin : Bool :=
  true

/-! ### The runner's entry-point dispatch (part_006 lines 107-118) -/

/-- The visible diagnostic the runner writes when no entry point exists
(the `container.innerHTML` assignment of the final `else`). -/
def noEntryHtml : String :=
  "<div style=\"padding: 20px; color: #ef4444;\">Error: No <b>App</b> component found. Please define <code>export default function App()</code>.</div>"

/-- Outcome of the runner's guarded block once the normalized source has
executed. -/
inductive RunOutcome
  | mounted
  | ranMain
  | noEntry (html : String)
deriving DecidableEq, Repr

/-- The dispatch at the end of the `try` block: mount `App` if defined,
else call `main` if defined, else write the no-entry diagnostic. -/
def runnerDispatch (appDefined mainDefined : Bool) : RunOutcome :=
  if appDefined then RunOutcome.mounted
  else if mainDefined then RunOutcome.ranMain
  else RunOutcome.noEntry noEntryHtml

/-! ### Chat.handleSubmit (part_007 lines 317-334)

The second Chat variant (part_007 lines 876-891) is the special case
`overrideInput = none` of the same guard and optimistic update. -/

structure ImageAttachment where
  url : String
  mimeType : String
  data : String
deriving DecidableEq, Repr

structure Message where
  id : String
  role : String
  content : String
  type : String
  attachments : Option (List ImageAttachment)
deriving DecidableEq, Repr

structure ChatState where
  messages : List Message
  input : String
  selectedImage : Option ImageAttachment
  isLoading : Bool
deriving DecidableEq, Repr

/-- JS `String.prototype.trim`: drop WhiteSpace/LineTerminator chars
from both ends. -/
def trimJS (s : String) : String :=
  (((s.data.dropWhile (fun c => jsSpace c)).reverse.dropWhile
      (fun c => jsSpace c)).reverse).asString

/-- `const messageInput = overrideInput || input;` — JS `||` falls back
on `undefined` and on the empty string. -/
def resolveMessageInput (overrideInput : Option String) (input : String) : String :=
  match overrideInput with
  | some s => if s = "" then input else s
  | none => input

/-- The early-return guard:
`if ((!messageInput.trim() && !selectedImage) || isLoading) return;`. -/
def submitGuard (overrideInput : Option String) (st : ChatState) : Bool :=
  (trimJS (resolveMessageInput overrideInput st.input) = "" &&
    st.selectedImage = none) || st.isLoading

/-- The synchronous part of `handleSubmit`: either the guard fires and
nothing changes (no request is issued), or the user message is appended,
the input cleared (unless an override was passed), the image cleared and
the loading flag raised, with the message content to send returned. -/
def handleSubmit (now : Nat) (overrideInput : Option String) (st : ChatState) :
    ChatState × Option String :=
  if submitGuard overrideInput st then (st, none)
  else
    let messageInput := resolveMessageInput overrideInput st.input
    let userMessage : Message :=
      { id := toString now, role := "user", content := messageInput,
        type := "text",
        attachments := st.selectedImage.map (fun i => [i]) }
    ({ messages := st.messages ++ [userMessage],
       input := if overrideInput = none ∨ overrideInput = some "" then "" else st.input,
       selectedImage := none,
       isLoading := true }, some messageInput)

/-! ### Helper lemmas -/

theorem wordChar_not_jsSpace {c : Char} (h : wordChar c = true) : jsSpace c = false := by
  revert h
  simp only [wordChar, jsSpace, Bool.or_eq_true, Bool.and_eq_true, decide_eq_true_eq,
    Bool.or_eq_false_iff, Bool.and_eq_false_iff, decide_eq_false_iff_not]
  omega

theorem dropLit_append (l cs : List Char) : dropLit l (l ++ cs) = some cs := by
  induction l with
  | nil => rfl
  | cons c ls ih => simp [dropLit, ih]

theorem takeWhile_append_all {p : Char → Bool} {l r : List Char}
    (hl : l.all p = true) (hr : headNot p r = true) :
    (l ++ r).takeWhile p = l := by
  induction l with
  | nil =>
    cases r with
    | nil => rfl
    | cons c cs =>
      simp only [headNot, Bool.not_eq_true'] at hr
      simp [List.takeWhile_cons, hr]
  | cons c ls ih =>
    simp only [List.all_cons, Bool.and_eq_true] at hl
    simp [List.takeWhile_cons, hl.1, ih hl.2]

theorem dropWhile_append_all {p : Char → Bool} {l r : List Char}
    (hl : l.all p = true) (hr : headNot p r = true) :
    (l ++ r).dropWhile p = r := by
  induction l with
  | nil =>
    cases r with
    | nil => rfl
    | cons c cs =>
      simp only [headNot, Bool.not_eq_true'] at hr
      simp [List.dropWhile_cons, hr]
  | cons c ls ih =>
    simp only [List.all_cons, Bool.and_eq_true] at hl
    simp [List.dropWhile_cons, hl.1, ih hl.2]

theorem stripAll_of_no_match {m : List Char → Option (List Char)} {cs : List Char}
    (h : hasMatchB m cs = false) : ∀ f, stripAll m f cs = cs := by
  induction cs with
  | nil =>
    intro f
    cases f <;> rfl
  | cons c cs ih =>
    intro f
    simp only [hasMatchB, Bool.or_eq_false_iff] at h
    cases f with
    | zero => rfl
    | succ f =>
      simp only [stripAll]
      cases hm : m (c :: cs) with
      | some r => simp [hm] at h
      | none => simp [ih h.2 f]

theorem replaceOne_of_no_match {m : List Char → Option (List Char × List Char)}
    {cs : List Char} (h : hasMatchOneB m cs = false) : replaceOne m cs = cs := by
  induction cs with
  | nil => rfl
  | cons c cs ih =>
    simp only [hasMatchOneB, Bool.or_eq_false_iff] at h
    simp only [replaceOne]
    cases hm : m (c :: cs) with
    | some r => simp [hm] at h
    | none => simp [ih h.2]

theorem containsSub_append_right {pat b : List Char} (a : List Char)
    (h : containsSub pat b = true) : containsSub pat (a ++ b) = true := by
  induction a with
  | nil => simpa using h
  | cons c a ih => simp [containsSub, ih]

theorem dropLit_some_length {l cs r : List Char} (h : dropLit l cs = some r) :
    r.length + l.length = cs.length := by
  induction l generalizing cs with
  | nil =>
    simp only [dropLit, Option.some_inj] at h
    subst h
    simp
  | cons a ls ih =>
    cases cs with
    | nil => exact absurd h (by simp [dropLit])
    | cons c cs =>
      by_cases hc : c = a
      · simp only [dropLit, if_pos hc] at h
        have := ih h
        simp only [List.length_cons]
        omega
      · simp [dropLit, hc] at h

theorem dropWhile_length_le (p : Char → Bool) (l : List Char) :
    (l.dropWhile p).length ≤ l.length := by
  induction l with
  | nil => simp
  | cons c cs ih =>
    by_cases h : p c
    · simp only [List.dropWhile_cons, if_pos h, List.length_cons]
      omega
    · simp [List.dropWhile_cons, h]

theorem wsPlus_some_length {cs r : List Char} (h : wsPlus cs = some r) :
    r.length < cs.length := by
  cases cs with
  | nil => simp [wsPlus] at h
  | cons c cs =>
    simp only [wsPlus] at h
    split at h
    · cases h
      have := dropWhile_length_le (fun x => jsSpace x) cs
      simp only [List.length_cons]
      omega
    · cases h

theorem lazyClose_some_length {cs r : List Char} (h : lazyClose cs = some r) :
    r.length < cs.length := by
  induction cs with
  | nil => simp [lazyClose] at h
  | cons c cs ih =>
    simp only [lazyClose] at h
    split at h
    · cases h
      split
      · simp only [List.length_cons]; omega
      · simp only [List.length_cons]; omega
    · split at h
      · have := ih h
        simp only [List.length_cons]
        omega
      · cases h

theorem tryQuote_some_length {cs r : List Char} (h : tryQuote cs = some r) :
    r.length < cs.length := by
  cases cs with
  | nil => simp [tryQuote] at h
  | cons q cs2 =>
    simp only [tryQuote] at h
    split at h
    · have := lazyClose_some_length h
      simp only [List.length_cons]
      omega
    · cases h

theorem tryTail_some_length {cs r : List Char} (h : tryTail cs = some r) :
    r.length < cs.length := by
  unfold tryTail at h
  rw [Option.bind_eq_some] at h
  obtain ⟨cs1, h1, h2⟩ := h
  rw [Option.bind_eq_some] at h1
  obtain ⟨cs0, hdl, hws⟩ := h1
  have l1 := dropLit_some_length hdl
  have l2 := wsPlus_some_length hws
  have l3 := tryQuote_some_length h2
  have l4 : ("from".data).length = 4 := rfl
  omega

theorem findFromTail_some_length {cs r : List Char} (h : findFromTail cs = some r) :
    r.length < cs.length := by
  induction cs with
  | nil => simp [findFromTail] at h
  | cons c cs ih =>
    simp only [findFromTail] at h
    cases ht : tryTail (c :: cs) with
    | some r2 =>
      rw [ht] at h
      cases h
      exact tryTail_some_length ht
    | none =>
      rw [ht] at h
      have := ih h
      simp only [List.length_cons]
      omega

theorem matchImport_some_length {cs r : List Char} (h : matchImport cs = some r) :
    r.length < cs.length := by
  unfold matchImport at h
  rw [Option.bind_eq_some] at h
  obtain ⟨cs1, h1, h2⟩ := h
  rw [Option.bind_eq_some] at h1
  obtain ⟨cs0, hdl, hws⟩ := h1
  have l1 := dropLit_some_length hdl
  have l2 := wsPlus_some_length hws
  have l3 := findFromTail_some_length h2
  have l4 : ("import".data).length = 6 := rfl
  omega

theorem stripAll_fuel_stable {m : List Char → Option (List Char)}
    (hm : ∀ cs r, m cs = some r → r.length < cs.length) :
    ∀ f₁ f₂ cs, cs.length < f₁ → cs.length < f₂ →
      stripAll m f₁ cs = stripAll m f₂ cs := by
  intro f₁
  induction f₁ with
  | zero => intro f₂ cs h1 h2; omega
  | succ f₁ ih =>
    intro f₂ cs h1 h2
    cases cs with
    | nil =>
      cases f₂ with
      | zero => omega
      | succ f₂ => rfl
    | cons c cs =>
      cases f₂ with
      | zero => omega
      | succ f₂ =>
        simp only [stripAll]
        cases hmc : m (c :: cs) with
        | some rest =>
          have hlt := hm _ _ hmc
          simp only [List.length_cons] at h1 h2 hlt
          exact ih f₂ rest (by omega) (by omega)
        | none =>
          simp only [List.length_cons] at h1 h2
          simp [ih f₂ cs (by omega) (by omega)]

theorem findFromTail_missAll {x tail : List Char}
    (h : missAllG tryTail x tail = true) :
    findFromTail (x ++ tail) = findFromTail tail := by
  induction x with
  | nil => rfl
  | cons c xs ih =>
    simp only [missAllG, Bool.and_eq_true, Bool.not_eq_true'] at h
    have h1 : (tryTail (c :: (xs ++ tail))).isSome = false := by
      simpa using h.1
    simp only [List.cons_append, findFromTail]
    cases ht : tryTail (c :: (xs ++ tail)) with
    | some r => rw [ht] at h1; simp at h1
    | none => exact ih h.2

theorem lazyClose_append {m cs : List Char}
    (hm : m.all (fun c => dotChar c && !quoteChar c) = true) :
    lazyClose (m ++ cs) = lazyClose cs := by
  induction m with
  | nil => rfl
  | cons c ms ih =>
    simp only [List.all_cons, Bool.and_eq_true, Bool.not_eq_true'] at hm
    simp only [List.cons_append, lazyClose, hm.1.2, hm.1.1]
    simp [ih hm.2]

theorem wsPlus_cons_not {c : Char} {rest : List Char} (h1 : jsSpace c = true)
    (h2 : headNot jsSpace rest = true) : wsPlus (c :: rest) = some rest := by
  simp only [wsPlus, if_pos h1]
  cases rest with
  | nil => rfl
  | cons d ds =>
    simp only [headNot, Bool.not_eq_true'] at h2
    simp [List.dropWhile_cons, h2]

theorem replaceOne_head {m : List Char → Option (List Char × List Char)}
    {c : Char} {cs rep rest : List Char} (h : m (c :: cs) = some (rep, rest)) :
    replaceOne m (c :: cs) = rep ++ rest := by
  simp [replaceOne, h]

theorem stripAll_head {m : List Char → Option (List Char)}
    {c : Char} {cs rest : List Char} (f : Nat) (h : m (c :: cs) = some rest) :
    stripAll m (f + 1) (c :: cs) = stripAll m f rest := by
  simp [stripAll, h]

/-- `matchEDF` at the head of `export default function NAME…`: the
captured name is the maximal word run, i.e. the declared name itself when
the text after it starts with a non-word character. -/
theorem matchEDF_at {name body : List Char}
    (hname : name.all wordChar = true) (hne : name ≠ [])
    (hbody : headNot wordChar body = true) :
    matchEDF ("export default function ".data ++ name ++ body) =
      some ("function ".data ++ name, body) := by
  obtain ⟨c, name', rfl⟩ : ∃ c name', name = c :: name' := by
    cases name with
    | nil => exact absurd rfl hne
    | cons c name' => exact ⟨c, name', rfl⟩
  simp only [List.all_cons, Bool.and_eq_true] at hname
  have hsplit : "export default function ".data ++ (c :: name') ++ body =
      "export".data ++ (' ' :: ("default".data ++ (' ' ::
        ("function".data ++ (' ' :: (c :: (name' ++ body))))))) := rfl
  have hjs : jsSpace c = false := wordChar_not_jsSpace hname.1
  have hws1 : wsPlus (' ' :: ("default".data ++ (' ' ::
      ("function".data ++ (' ' :: (c :: (name' ++ body))))))) =
      some ("default".data ++ (' ' :: ("function".data ++
        (' ' :: (c :: (name' ++ body)))))) :=
    wsPlus_cons_not (by decide) rfl
  have hws2 : wsPlus (' ' :: ("function".data ++ (' ' :: (c :: (name' ++ body))))) =
      some ("function".data ++ (' ' :: (c :: (name' ++ body)))) :=
    wsPlus_cons_not (by decide) rfl
  have hws3 : wsPlus (' ' :: (c :: (name' ++ body))) = some (c :: (name' ++ body)) :=
    wsPlus_cons_not (by decide) (by simp [headNot, hjs])
  have hwp : wordPlus (c :: (name' ++ body)) = some (c :: name', body) := by
    simp only [wordPlus, if_pos hname.1]
    rw [takeWhile_append_all hname.2 hbody, dropWhile_append_all hname.2 hbody]
  rw [hsplit]
  unfold matchEDF
  rw [dropLit_append]
  simp only [Option.some_bind]
  rw [hws1]
  simp only [Option.some_bind]
  rw [dropLit_append]
  simp only [Option.some_bind]
  rw [hws2]
  simp only [Option.some_bind]
  rw [dropLit_append]
  simp only [Option.some_bind]
  rw [hws3]
  simp only [Option.some_bind]
  rw [hwp]
  simp [List.cons_append]

/-- `matchImport` at the head of `import X from 'M';…`: with a plain
specifier (no whitespace head, no spurious `from`-clause inside) and a
module text free of quotes and line terminators, the whole statement is
matched and exactly the remainder is returned. -/
theorem matchImport_stmt {x m post : List Char}
    (hx0 : x ≠ []) (hx1 : headNot jsSpace x = true)
    (hmiss : missAllG tryTail x (" from \x27".data ++ (m ++ ("\x27;".data ++ post))) = true)
    (hm : m.all (fun c => dotChar c && !quoteChar c) = true) :
    matchImport (importStmtL x m ++ post) = some post := by
  obtain ⟨c, x', rfl⟩ : ∃ c x', x = c :: x' := by
    cases x with
    | nil => exact absurd rfl hx0
    | cons c x' => exact ⟨c, x', rfl⟩
  have hjs : jsSpace c = false := by
    simpa [headNot, Bool.not_eq_true'] using hx1
  have hsplit : importStmtL (c :: x') m ++ post =
      "import".data ++ (' ' :: ((c :: x') ++
        (" from \x27".data ++ (m ++ ("\x27;".data ++ post))))) := by
    simp only [importStmtL, List.append_assoc]
    rfl
  rw [hsplit]
  unfold matchImport
  rw [dropLit_append]
  simp only [Option.some_bind]
  have hws : wsPlus (' ' :: ((c :: x') ++
      (" from \x27".data ++ (m ++ ("\x27;".data ++ post))))) =
      some ((c :: x') ++ (" from \x27".data ++ (m ++ ("\x27;".data ++ post)))) :=
    wsPlus_cons_not (by decide) (by simp [List.cons_append, headNot, hjs])
  rw [hws]
  simp only [Option.some_bind]
  rw [findFromTail_missAll hmiss]
  have hT : " from \x27".data ++ (m ++ ("\x27;".data ++ post)) =
      ' ' :: ('f' :: ("rom".data ++ (' ' :: ('\x27' ::
        (m ++ ("\x27;".data ++ post)))))) := rfl
  rw [hT]
  have ht1 : tryTail (' ' :: ('f' :: ("rom".data ++ (' ' :: ('\x27' ::
      (m ++ ("\x27;".data ++ post))))))) = none := rfl
  have ht2 : tryTail ('f' :: ("rom".data ++ (' ' :: ('\x27' ::
      (m ++ ("\x27;".data ++ post)))))) = some post := by
    have e : ('f' : Char) :: ("rom".data ++ (' ' :: ('\x27' ::
        (m ++ ("\x27;".data ++ post))))) =
        "from".data ++ (' ' :: ('\x27' :: (m ++ ("\x27;".data ++ post)))) := rfl
    rw [e]
    unfold tryTail
    rw [dropLit_append]
    simp only [Option.some_bind]
    have hws2 : wsPlus (' ' :: ('\x27' :: (m ++ ("\x27;".data ++ post)))) =
        some ('\x27' :: (m ++ ("\x27;".data ++ post))) :=
      wsPlus_cons_not (by decide) rfl
    rw [hws2]
    simp only [Option.some_bind]
    simp only [tryQuote]
    rw [if_pos (by decide)]
    rw [lazyClose_append hm]
    rfl
  simp only [findFromTail, ht1, ht2]

/-- A global-replace scan walks over a match-free region unchanged,
consuming one unit of fuel per character. -/
theorem stripAll_append_no_match {m : List Char → Option (List Char)}
    {pre rest : List Char} (hpre : missAllG m pre rest = true) :
    ∀ f, stripAll m (f + pre.length) (pre ++ rest) = pre ++ stripAll m f rest := by
  induction pre with
  | nil => intro f; rfl
  | cons c xs ih =>
    intro f
    simp only [missAllG, Bool.and_eq_true, Bool.not_eq_true'] at hpre
    have hnone : m (c :: (xs ++ rest)) = none := by
      have := hpre.1
      rw [List.cons_append] at this
      exact Option.not_isSome_iff_eq_none.mp (by simp [this])
    have e : f + (c :: xs).length = (f + xs.length) + 1 := by
      simp only [List.length_cons]
      omega
    rw [List.cons_append, e]
    simp only [stripAll, hnone]
    rw [ih hpre.2 f]
    rfl

/-- The full normalization chain on a source of the exact shape
`export default function NAME BODY`, when the source contains no
import-statement match and the rewritten text contains no further
`export` match: the default-exported declaration is rewritten to a plain
declaration that keeps its original name. -/
theorem cleanedCodeL_edf {name body : List Char}
    (hname : name.all wordChar = true) (hne : name ≠ [])
    (hbody : headNot wordChar body = true)
    (h1 : hasMatchB matchImport ("export default function ".data ++ name ++ body) = false)
    (h2 : hasMatchOneB matchED ("function ".data ++ name ++ body) = false)
    (h3 : hasMatchB matchEW ("function ".data ++ name ++ body) = false) :
    cleanedCodeL ("export default function ".data ++ name ++ body) =
      "function ".data ++ name ++ body := by
  have hmc : matchEDF ('e' :: ("xport default function ".data ++ name ++ body)) =
      some ("function ".data ++ name, body) := matchEDF_at hname hne hbody
  have hr : replaceOne matchEDF ("export default function ".data ++ name ++ body) =
      "function ".data ++ name ++ body := by
    have e : "export default function ".data ++ name ++ body =
        'e' :: ("xport default function ".data ++ name ++ body) := rfl
    rw [e, replaceOne_head hmc]
  simp only [cleanedCodeL]
  rw [stripAll_of_no_match h1, hr, replaceOne_of_no_match h2,
    stripAll_of_no_match h3]

/-- The import-stripping pass deletes a well-formed single-quoted
`import X from 'M';` statement wherever it occurs (after a match-free
region), and the full normalization chain on a source beginning with such
a statement equals the chain on the remainder alone. -/
theorem cleanedCodeL_import {pre x m post : List Char}
    (hx0 : x ≠ []) (hx1 : headNot jsSpace x = true)
    (hmiss : missAllG tryTail x (" from \x27".data ++ (m ++ ("\x27;".data ++ post))) = true)
    (hm : m.all (fun c => dotChar c && !quoteChar c) = true)
    (hpre : missAllG matchImport pre (importStmtL x m ++ post) = true) :
    stripAll matchImport ((pre ++ (importStmtL x m ++ post)).length + 1)
        (pre ++ (importStmtL x m ++ post)) =
      pre ++ stripAll matchImport (post.length + 1) post ∧
    cleanedCodeL (importStmtL x m ++ post) = cleanedCodeL post := by
  have hmatch := matchImport_stmt hx0 hx1 hmiss hm
  have hshrink : ∀ cs r, matchImport cs = some r → r.length < cs.length :=
    fun cs r h => matchImport_some_length h
  have hstmtlen : 14 ≤ (importStmtL x m).length := by
    simp only [importStmtL, List.length_append, List.length_cons, List.length_nil]
    omega
  have hstage : ∀ f, (importStmtL x m ++ post).length ≤ f →
      stripAll matchImport (f + 1) (importStmtL x m ++ post) =
        stripAll matchImport (post.length + 1) post := by
    intro f hf
    obtain ⟨c, x', rfl⟩ : ∃ c x', x = c :: x' := by
      cases x with
      | nil => exact absurd rfl hx0
      | cons c x' => exact ⟨c, x', rfl⟩
    have e : importStmtL (c :: x') m ++ post =
        'i' :: ("mport ".data ++ ((c :: x') ++
          (" from \x27".data ++ (m ++ ("\x27;".data ++ post))))) := by
      simp only [importStmtL, List.append_assoc]
      rfl
    have hmatch' : matchImport ('i' :: ("mport ".data ++ ((c :: x') ++
        (" from \x27".data ++ (m ++ ("\x27;".data ++ post)))))) = some post := by
      rw [← e]
      exact hmatch
    rw [e, stripAll_head f hmatch']
    apply stripAll_fuel_stable hshrink
    · have hla : (importStmtL (c :: x') m ++ post).length =
          (importStmtL (c :: x') m).length + post.length := by
        simp [List.length_append]
      omega
    · omega
  constructor
  · have efuel : (pre ++ (importStmtL x m ++ post)).length + 1 =
        ((importStmtL x m ++ post).length + 1) + pre.length := by
      simp only [List.length_append]
      omega
    rw [efuel, stripAll_append_no_match hpre]
    rw [hstage (importStmtL x m ++ post).length (le_refl _)]
  · simp only [cleanedCodeL]
    rw [hstage (importStmtL x m ++ post).length (le_refl _)]

theorem string_data_append (a b : String) : (a ++ b).data = a.data ++ b.data := rfl

theorem isPrefixOf_append_self (l t : List Char) : l.isPrefixOf (l ++ t) = true := by
  induction l with
  | nil => simp [List.isPrefixOf]
  | cons c cs ih => simp [List.isPrefixOf, List.cons_append, ih]

theorem containsSub_self_append {pat rest : List Char} :
    containsSub pat (pat ++ rest) = true := by
  cases pat with
  | nil =>
    cases rest with
    | nil => rfl
    | cons c cs => simp [containsSub, List.isPrefixOf]
  | cons c cs =>
    have hp := isPrefixOf_append_self (c :: cs) rest
    rw [List.cons_append] at hp
    simp [containsSub, hp]

set_option maxRecDepth 80000 in
theorem noEntry_in_templatePost : containsSub noEntryHtml.data templatePost.data = true := by
  decide

/-! ### Claim theorems -/

/-- C1 (counterexample): the source `export default function Widget(){}`
declares a default-exported function, yet the normalized source is
`function Widget(){}` — it contains no declaration named `App` (neither
`function App` nor `const App`), contradicting the claim that the
normalization produces a declaration named exactly `App`. -/
theorem C1_counterexample :
    containsSub "export default function ".data
        "export default function Widget(){}".data = true ∧
    cleanedCode "export default function Widget(){}" = "function Widget(){}" ∧
    containsSub "function App".data
        (cleanedCodeL "export default function Widget(){}".data) = false ∧
    containsSub "const App".data
        (cleanedCodeL "export default function Widget(){}".data) = false := by
  refine ⟨by decide, by decide, by decide, by decide⟩

/-- C1 (amended): normalizing a default-exported function declaration
`export default function NAME BODY` yields the plain declaration
`function NAME BODY` — the original name is preserved (so a declaration
named exactly `App` appears only when the exported function is itself
named `App`), and no `export` remains when the rewritten text has no
further `export` match.  Hypotheses: `NAME` is a nonempty word, `BODY`
starts with a non-word character, and the source contains no import
match and no further export match. -/
theorem C1_amended_normalization {name body : List Char}
    (hname : name.all wordChar = true) (hne : name ≠ [])
    (hbody : headNot wordChar body = true)
    (h1 : hasMatchB matchImport
      ("export default function ".data ++ name ++ body) = false)
    (h2 : hasMatchOneB matchED ("function ".data ++ name ++ body) = false)
    (h3 : hasMatchB matchEW ("function ".data ++ name ++ body) = false) :
    cleanedCodeL ("export default function ".data ++ name ++ body) =
      "function ".data ++ name ++ body :=
  cleanedCodeL_edf hname hne hbody h1 h2 h3

/-- C1 (witness): the amended theorem applied to `Widget` and the body
`(){ return 1 }`. -/
theorem C1_witness :
    cleanedCodeL ("export default function ".data ++ "Widget".data ++
        "(){ return 1 }".data) =
      "function ".data ++ "Widget".data ++ "(){ return 1 }".data :=
  C1_amended_normalization (by decide) (by decide) (by decide) (by decide)
    (by decide) (by decide)

/-- C2: the iframe's sandbox attribute grants both `allow-scripts` and
`allow-same-origin` to a document the host itself writes via
`document.write` (hence same-origin), so under the standard sandbox
semantics the spec's host-isolation requirement fails: sandboxed script
is not denied access to host storage and host JavaScript state. -/
theorem C2_sandbox_grants_host_access :
    sandboxTokens.contains "allow-scripts" = true ∧
    sandboxTokens.contains "allow-same-origin" = true ∧
    isolatesHostState sandboxTokens presentedDocSameOrigin = false := by
  refine ⟨by decide, by decide, by decide⟩

/-- C3: document composition is pure and total — it is a total function
of the `(language, source)` pair, so a composed document exists for every
input and any two compositions of the same pair are identical. -/
theorem C3_render_pure_total (language code : String) :
    (∃ d, renderContent language code = d) ∧
    ∀ d₁ d₂, renderContent language code = d₁ →
      renderContent language code = d₂ → d₁ = d₂ := by
  refine ⟨⟨renderContent language code, rfl⟩, ?_⟩
  intro d₁ d₂ h₁ h₂
  rw [← h₁, ← h₂]

/-- C3 (witness): determinism of the composition at a concrete pair. -/
theorem C3_witness :
    renderContent "jsx" "const App = () => 1" =
      renderContent "jsx" "const App = () => 1" :=
  (C3_render_pure_total "jsx" "const App = () => 1").2 _ _ rfl rfl

/-- C4: for every source in a non-html previewable language, the
composed document always carries the runner's no-entry-point diagnostic
branch, and the runner's dispatch — when neither `App` nor `main` is
defined after execution — selects that visible, nonempty diagnostic
rather than a blank output. -/
theorem C4_no_entry_dispatch (code language : String)
    (h : language = "jsx" ∨ language = "tsx" ∨ language = "javascript" ∨
      language = "typescript") :
    containsSub noEntryHtml.data (renderContent language code).data = true ∧
    runnerDispatch false false = RunOutcome.noEntry noEntryHtml ∧
    noEntryHtml ≠ "" := by
  refine ⟨?_, rfl, by decide⟩
  have hrc : renderContent language code =
      templatePre ++ cleanedCode code ++ templatePost := by
    rcases h with h | h | h | h <;> subst h <;> simp [renderContent]
  rw [hrc, string_data_append, string_data_append, List.append_assoc]
  apply containsSub_append_right
  apply containsSub_append_right
  exact noEntry_in_templatePost

/-- C4 (witness): the theorem at language `jsx` with a source defining
neither `App` nor `main`. -/
theorem C4_witness :
    containsSub noEntryHtml.data (renderContent "jsx" "let a = 1").data = true :=
  (C4_no_entry_dispatch "let a = 1" "jsx" (Or.inl rfl)).1

/-- C7 (counterexample): the side-effect import `import "./x";` is a
static import statement, but it has no `from` clause, so normalization
leaves it untouched and the composed document embeds it verbatim —
contradicting the claim that every static import statement is removed. -/
theorem C7_counterexample :
    cleanedCode "import \x22./x\x22;" = "import \x22./x\x22;" ∧
    containsSub "import \x22./x\x22;".data
      (renderContent "javascript" "import \x22./x\x22;").data = true := by
  refine ⟨by decide, ?_⟩
  have hrc : renderContent "javascript" "import \x22./x\x22;" =
      templatePre ++ cleanedCode "import \x22./x\x22;" ++ templatePost := by
    simp [renderContent]
  rw [hrc, string_data_append, string_data_append, List.append_assoc]
  apply containsSub_append_right
  rw [show (cleanedCode "import \x22./x\x22;").data = "import \x22./x\x22;".data
    from by decide]
  exact containsSub_self_append

/-- C7 (amended): every well-formed single-quoted `import X from 'M';`
statement is deleted by the import-stripping pass wherever it occurs
after a match-free region, and normalization of a source beginning with
such a statement equals normalization of the remainder alone; import
statements without a `from` clause are not removed (see the
counterexample). -/
theorem C7_amended_import_strip {pre x m post : List Char}
    (hx0 : x ≠ []) (hx1 : headNot jsSpace x = true)
    (hmiss : missAllG tryTail x
      (" from \x27".data ++ (m ++ ("\x27;".data ++ post))) = true)
    (hm : m.all (fun c => dotChar c && !quoteChar c) = true)
    (hpre : missAllG matchImport pre (importStmtL x m ++ post) = true) :
    stripAll matchImport ((pre ++ (importStmtL x m ++ post)).length + 1)
        (pre ++ (importStmtL x m ++ post)) =
      pre ++ stripAll matchImport (post.length + 1) post ∧
    cleanedCodeL (importStmtL x m ++ post) = cleanedCodeL post :=
  cleanedCodeL_import hx0 hx1 hmiss hm hpre

/-- C7 (witness): stripping `import React from 'react';` ahead of
`const a = 1`. -/
theorem C7_witness :
    cleanedCodeL (importStmtL "React".data "react".data ++ "const a = 1".data) =
      cleanedCodeL "const a = 1".data :=
  (@C7_amended_import_strip [] "React".data "react".data "const a = 1".data
    (by decide) (by decide) (by decide) (by decide) (by decide)).2

/-- C5: for `html` inputs the composed document equals the source
byte-for-byte. -/
theorem C5_html_identity (code : String) : renderContent "html" code = code := by
  simp [renderContent]

/-- C6 (counterexample): `javascript` is previewable, yet the
component's initial display mode for it is the source (`code`) tab, not
`preview`. -/
theorem C6_counterexample :
    isPreviewable "javascript" = true ∧
    initialActiveTab "javascript" = Tab.code ∧
    Tab.code ≠ Tab.preview := by
  refine ⟨by decide, by decide, by decide⟩

/-- C6 (amended): the initial display mode is `preview` exactly for
`html`, `jsx` and `tsx`; every other language — including the previewable
`javascript` and `typescript` — starts on the source tab. -/
theorem C6_amended_initial_mode (language : String) :
    initialActiveTab language = Tab.preview ↔
      (language = "html" ∨ language = "jsx" ∨ language = "tsx") := by
  by_cases h1 : language = "html"
  · simp [initialActiveTab, h1]
  · by_cases h2 : language = "jsx"
    · simp [initialActiveTab, h2]
    · by_cases h3 : language = "tsx"
      · simp [initialActiveTab, h3]
      · simp [initialActiveTab, h1, h2, h3]

/-- C6 (witness): the amended theorem applied at `tsx`. -/
theorem C6_witness : initialActiveTab "tsx" = Tab.preview :=
  (C6_amended_initial_mode "tsx").mpr (Or.inr (Or.inr rfl))

/-- C8: presenting a second document fully replaces the first — the
resulting context state is independent of the previously presented
document, and its content is exactly the second document. -/
theorem C8_present_overwrites (d₁ d₂ : String) (st : IframeDoc) (_h : d₁ ≠ d₂) :
    present d₂ (present d₁ st) = present d₂ st ∧
    (present d₂ (present d₁ st)).content = d₂ := by
  constructor
  · rfl
  · show "" ++ d₂ = d₂
    rfl

/-- C8 (witness): two sequential presents of differing documents. -/
theorem C8_witness :
    present "<b>second</b>" (present "<b>first</b>" { content := "", closed := false }) =
      present "<b>second</b>" { content := "", closed := false } :=
  (C8_present_overwrites "<b>first</b>" "<b>second</b>"
    { content := "", closed := false } (by decide)).1

/-- C9: `copyToClipboard` writes the exact raw source (not the
normalized or wrapped document) to the clipboard, raises the `copied`
flag, and schedules its reset to `false` after 2000 ms. -/
theorem C9_copy_raw_source (code : String) :
    (copyToClipboard code).written = code ∧
    (copyToClipboard code).copied = true ∧
    (copyToClipboard code).timerDelayMs = 2000 ∧
    copyTimerFire (copyToClipboard code) = false :=
  ⟨rfl, rfl, rfl, rfl⟩

/-- C10: when the trimmed message input is empty and no image is
selected, or a request is already in flight, `handleSubmit` returns with
the state unchanged and no outbound request. -/
theorem C10_submit_guard_frame (now : Nat) (overrideInput : Option String)
    (st : ChatState)
    (h : (trimJS (resolveMessageInput overrideInput st.input) = "" ∧
        st.selectedImage = none) ∨ st.isLoading = true) :
    handleSubmit now overrideInput st = (st, none) := by
  have hg : submitGuard overrideInput st = true := by
    unfold submitGuard
    rcases h with ⟨h1, h2⟩ | h3
    · simp [h1, h2]
    · simp [h3]
  simp [handleSubmit, hg]

/-- C10 (witness): the guard at an empty input with no image. -/
theorem C10_witness :
    handleSubmit 0 none
        { messages := [], input := "", selectedImage := none, isLoading := false } =
      ({ messages := [], input := "", selectedImage := none, isLoading := false },
        none) :=
  C10_submit_guard_frame 0 none
    { messages := [], input := "", selectedImage := none, isLoading := false }
    (Or.inl ⟨rfl, rfl⟩)

end GeminiApp
